import Mathlib

/-!
Shallow embedding of the Tailwind CSS JIT at-rule expansion subsystem
(`expandTailwindAtRules` and its helpers `getClassCandidates`,
`buildStylesheet`, `findRootInDocument`), translated from the JavaScript
source.

Modelling conventions:
* JavaScript `Set` objects are modelled as duplicate-free `List`s with an
  insertion-order preserving `sadd`.
* JavaScript `Map` objects are modelled as association lists where `mapSet`
  updates in place (preserving insertion position) and otherwise appends.
* BigInt sort keys are modelled as `Int`; the JavaScript bitwise AND on
  BigInt is two's-complement, matching `Int.land`.
* Extractor functions (which key the per-extractor cache WeakMap by
  function identity) are modelled by `Nat` keys together with an
  interpretation `I : Nat → String → List String` passed as a parameter;
  key 0 is the built-in default extractor, a configured extractor `e`
  gets key `e + 1`.
* The external `generateRules` collaborator is a parameter
  `gen : candidates → classCache → (rules, classCache)`; the class cache
  is observed only through its size, and is modelled as a `List String`.
-/

namespace TW

/-- A generated CSS rule node; `parentLayer` models
`node.raws.tailwind?.parentLayer` (an arbitrary optional string tag). -/
structure RuleNode where
  id : Nat
  parentLayer : Option String
deriving DecidableEq, Repr

/-- Layer bit flags from the build context (`context.layerOrder`). -/
structure LayerOrder where
  base : Int
  defaults : Int
  components : Int
  utilities : Int
  user : Int
deriving DecidableEq, Repr

/-- The memoized partition of the rule cache into six buckets
(the object literal built by `buildStylesheet`).  JavaScript `Set`
buckets become insertion-ordered duplicate-free lists. -/
structure Stylesheet where
  base : List RuleNode
  defaults : List RuleNode
  components : List RuleNode
  utilities : List RuleNode
  variants : List RuleNode
  user : List RuleNode
deriving DecidableEq, Repr

def Stylesheet.empty : Stylesheet := ⟨[], [], [], [], [], []⟩

/-- JavaScript `Set.prototype.add`: insertion-ordered, no duplicates. -/
def sadd {α} [DecidableEq α] (s : List α) (x : α) : List α :=
  if x ∈ s then s else s ++ [x]

/-- Add every element of `xs` to the set `s`, in order. -/
def saddAll {α} [DecidableEq α] (s xs : List α) : List α := xs.foldl sadd s

/-- `new Set(xs)`: deduplicate keeping first occurrences, in order. -/
def dedupSet {α} [DecidableEq α] (xs : List α) : List α := xs.foldl sadd []

/-- JavaScript `Map.prototype.has` on an association list. -/
def mapHas {α β} [DecidableEq α] (m : List (α × β)) (k : α) : Bool :=
  m.any (fun p => p.1 = k)

/-- JavaScript `Map.prototype.get` on an association list. -/
def mapGet {α β} [DecidableEq α] (m : List (α × β)) (k : α) : Option β :=
  (m.find? (fun p => p.1 = k)).map (·.2)

/-- JavaScript `Map.prototype.set`: update in place if the key exists
(keeping its insertion position), otherwise append. -/
def mapSet {α β} [DecidableEq α] (m : List (α × β)) (k : α) (v : β) : List (α × β) :=
  if mapHas m k then m.map (fun p => if p.1 = k then (k, v) else p)
  else m ++ [(k, v)]

/-- JavaScript `Map.prototype.delete` (result map only). -/
def mapDelete {α β} [DecidableEq α] (m : List (α × β)) (k : α) : List (α × β) :=
  m.filter (fun p => ¬ p.1 = k)

/-- The `quick-lru` cache used per extractor (`new LRU({ maxSize: 25000 })`):
two generations `cache`/`oldCache` plus the insertion counter `sz`. -/
structure QuickLRU where
  maxSize : Nat
  cache : List (String × List String)
  oldCache : List (String × List String)
  sz : Nat
deriving DecidableEq, Repr

def QuickLRU.empty (maxSize : Nat) : QuickLRU := ⟨maxSize, [], [], 0⟩

def QuickLRU.has (l : QuickLRU) (k : String) : Bool :=
  mapHas l.cache k || mapHas l.oldCache k

/-- quick-lru's private `_set`: insert into the young generation and
rotate the generations when the counter reaches `maxSize`. -/
def QuickLRU.internalSet (l : QuickLRU) (k : String) (v : List String) : QuickLRU :=
  let c := mapSet l.cache k v
  if l.sz + 1 ≥ l.maxSize then { l with cache := [], oldCache := c, sz := 0 }
  else { l with cache := c, sz := l.sz + 1 }

/-- quick-lru `get`: a hit in the old generation is promoted to the young
generation (this is what makes it recently used). -/
def QuickLRU.get (l : QuickLRU) (k : String) : Option (List String) × QuickLRU :=
  if mapHas l.cache k then (mapGet l.cache k, l)
  else if mapHas l.oldCache k then
    let v := (mapGet l.oldCache k).getD []
    let l' := { l with oldCache := mapDelete l.oldCache k }
    (some v, l'.internalSet k v)
  else (none, l)

/-- quick-lru `set`: overwrite in the young generation if present there,
otherwise insert via `internalSet`. -/
def QuickLRU.set (l : QuickLRU) (k : String) (v : List String) : QuickLRU :=
  if mapHas l.cache k then { l with cache := mapSet l.cache k v }
  else l.internalSet k v

/-- `tailwindConfig.content`: extension → configured extractor id /
transformer id (the `DEFAULT` fallback lives under the key "DEFAULT"). -/
structure TWConfig where
  extract : List (String × Nat)
  transform : List (String × Nat)
deriving DecidableEq, Repr

/-- `getExtractor`: `extractors[ext] || extractors.DEFAULT ||
builtInExtractors[ext] || builtInExtractors.DEFAULT`.  The two built-in
fallbacks both resolve to `defaultExtractor` (cache key 0); a configured
extractor `e` is cache key `e + 1`. -/
def getExtractor (cfg : TWConfig) (ext : String) : Nat :=
  match mapGet cfg.extract ext with
  | some e => e + 1
  | none =>
    match mapGet cfg.extract "DEFAULT" with
    | some e => e + 1
    | none => 0

/-- Which transformer `getTransformer` resolved to. -/
inductive TransformerRef where
  | config (id : Nat)
  | builtinSvelte
  | builtinDefault
deriving DecidableEq, Repr

/-- The pattern replaced by the built-in svelte transformer. -/
def classColon : List Char := ['c', 'l', 'a', 's', 's', ':']

/-- One global-regex pass of `content.replace(/(?:\s)class:/g, ' ')`:
a whitespace character followed by `class:` is replaced by a single
space, scanning resumes after the match. -/
def svelteAux : List Char → List Char
  | [] => []
  | c :: rest =>
    if c.isWhitespace && classColon.isPrefixOf rest then
      ' ' :: svelteAux (rest.drop 6)
    else c :: svelteAux rest
termination_by cs => cs.length
decreasing_by
  · simp only [List.length_cons, List.length_drop]
    omega
  · simp

/-- The built-in svelte transformer
`(content) => content.replace(/(?:^|\s)class:/g, ' ')`; the `^`
alternative can only fire at the very start of the string. -/
def svelteTransform (s : String) : String :=
  let cs := s.toList
  if classColon.isPrefixOf cs then String.mk (' ' :: svelteAux (cs.drop 6))
  else String.mk (svelteAux cs)

/-- `getTransformer`: `transformers[ext] || transformers.DEFAULT ||
builtInTransformers[ext] || builtInTransformers.DEFAULT`, where the
built-ins are `{ DEFAULT: identity, svelte: svelteTransform }`. -/
def getTransformer (cfg : TWConfig) (ext : String) : TransformerRef :=
  match mapGet cfg.transform ext with
  | some t => .config t
  | none =>
    match mapGet cfg.transform "DEFAULT" with
    | some t => .config t
    | none => if ext = "svelte" then .builtinSvelte else .builtinDefault

/-- Apply a resolved transformer, given the interpretation `TI` of
configured transformer ids. -/
def applyTransformer (TI : Nat → String → String) : TransformerRef → String → String
  | .config i, s => TI i s
  | .builtinSvelte, s => svelteTransform s
  | .builtinDefault, s => s

/-- JavaScript `line.trim()`: strip leading and trailing whitespace. -/
def jsTrim (s : String) : String :=
  String.mk (((s.toList.dropWhile Char.isWhitespace).reverse.dropWhile
    Char.isWhitespace).reverse)

def splitNewlinesAux : List Char → List Char → List String
  | [], acc => [String.mk acc.reverse]
  | c :: rest, acc =>
    if c = '\n' then String.mk acc.reverse :: splitNewlinesAux rest []
    else splitNewlinesAux rest (c :: acc)

/-- JavaScript `content.split('\n')`: the chunks between newline
characters, including empty ones. -/
def splitNewlines (s : String) : List String :=
  splitNewlinesAux s.toList []

/-- The mutable state threaded through the loop body of
`getClassCandidates`: the shared `candidates` and `seen` sets and the
current extractor's LRU cache. -/
structure LineState where
  candidates : List String
  seen : List String
  cache : QuickLRU
deriving DecidableEq, Repr

/-- One iteration of the `for (let line of content.split('\n'))` loop in
`getClassCandidates`: trim, skip if seen, otherwise consult the
extractor's cache; on a miss run the extractor (given by its key under
the interpretation `I`), drop the `!*` token, deduplicate, record and
store. -/
def processLine (I : Nat → String → List String) (extractor : Nat)
    (st : LineState) (rawLine : String) : LineState :=
  let line := jsTrim rawLine
  if line ∈ st.seen then st
  else
    let seen' := sadd st.seen line
    if st.cache.has line then
      let g := st.cache.get line
      { candidates := saddAll st.candidates (g.1.getD []), seen := seen', cache := g.2 }
    else
      let extractorMatches := (I extractor line).filter (fun s => ¬ s = "!*")
      let lineMatchesSet := dedupSet extractorMatches
      { candidates := saddAll st.candidates lineMatchesSet, seen := seen',
        cache := st.cache.set line lineMatchesSet }

/-- `getClassCandidates(content, extractor, candidates, seen)`: ensure the
extractor has an LRU cache (capacity 25000) in the WeakMap `emap`, then run
the line loop, and return the updated candidates, seen set and WeakMap. -/
def getClassCandidates (I : Nat → String → List String) (content : String)
    (extractor : Nat) (candidates seen : List String)
    (emap : List (Nat × QuickLRU)) :
    List String × List String × List (Nat × QuickLRU) :=
  let emap' := if mapHas emap extractor then emap
               else mapSet emap extractor (QuickLRU.empty 25000)
  let cache0 := (mapGet emap' extractor).getD (QuickLRU.empty 25000)
  let st := (splitNewlines content).foldl (processLine I extractor)
    ⟨candidates, seen, cache0⟩
  (st.candidates, st.seen, mapSet emap' extractor st.cache)

/-- One element of `context.changedContent`. -/
structure ContentUnit where
  content : String
  extension : String
deriving DecidableEq, Repr

/-- The state accumulated over the changed-content loop of
`expandTailwindAtRules`: `candidates`, the shared per-call `seen` set
and the extractor cache WeakMap. -/
structure CollectState where
  candidates : List String
  seen : List String
  emap : List (Nat × QuickLRU)
deriving DecidableEq, Repr

/-- One iteration of
`for (let { content, extension } of context.changedContent)`:
resolve the transformer and extractor for the extension and feed the
transformed content to `getClassCandidates`. -/
def collectStep (I : Nat → String → List String) (TI : Nat → String → String)
    (cfg : TWConfig) (st : CollectState) (u : ContentUnit) : CollectState :=
  let transformer := getTransformer cfg u.extension
  let extractor := getExtractor cfg u.extension
  let g := getClassCandidates I (applyTransformer TI transformer u.content)
    extractor st.candidates st.seen st.emap
  ⟨g.1, g.2.1, g.2.2⟩

/-- The candidate collection phase of `expandTailwindAtRules`
(`let candidates = new Set(['*']); let seen = new Set(); for ... of
context.changedContent ...`). -/
def collectCandidates (I : Nat → String → List String) (TI : Nat → String → String)
    (cfg : TWConfig) (changed : List ContentUnit)
    (emap : List (Nat × QuickLRU)) : CollectState :=
  changed.foldl (collectStep I TI cfg) ⟨["*"], [], emap⟩

/-- The build context (`context`): the fields of the long-lived context
object that this subsystem reads or writes. -/
structure TWContext where
  changedContent : List ContentUnit
  tailwindConfig : TWConfig
  classCache : List String
  ruleCache : List (Int × RuleNode)
  stylesheetCache : Option Stylesheet
  minimumScreen : Int
  layerOrder : LayerOrder
deriving DecidableEq, Repr

/-- The comparator `([a], [z]) => bigSign(a - z)` sorts ascending by sort
key; JavaScript's stable comparator sort is modelled by the stable
`List.mergeSort` under the same preorder. -/
def sortRules (rules : List (Int × RuleNode)) : List (Int × RuleNode) :=
  rules.mergeSort (fun a z => a.1 ≤ z.1)

/-- The body of the routing loop of `buildStylesheet`: threshold test for
variants first, then the layer bit flags in the fixed source order, first
match wins, unmatched rules are dropped. -/
def routeRule (ctx : TWContext) (ret : Stylesheet) (p : Int × RuleNode) : Stylesheet :=
  let (sort, rule) := p
  if sort ≥ ctx.minimumScreen then { ret with variants := sadd ret.variants rule }
  else if ¬ Int.land sort ctx.layerOrder.base = 0 then
    { ret with base := sadd ret.base rule }
  else if ¬ Int.land sort ctx.layerOrder.defaults = 0 then
    { ret with defaults := sadd ret.defaults rule }
  else if ¬ Int.land sort ctx.layerOrder.components = 0 then
    { ret with components := sadd ret.components rule }
  else if ¬ Int.land sort ctx.layerOrder.utilities = 0 then
    { ret with utilities := sadd ret.utilities rule }
  else if ¬ Int.land sort ctx.layerOrder.user = 0 then
    { ret with user := sadd ret.user rule }
  else ret

/-- `buildStylesheet(rules, context)`: sort by sort key, then route every
rule once. -/
def buildStylesheet (rules : List (Int × RuleNode)) (ctx : TWContext) : Stylesheet :=
  (sortRules rules).foldl (routeRule ctx) Stylesheet.empty

/-- The rule generation and stylesheet cache step of
`expandTailwindAtRules` (from `let classCacheCount = ...` to the end of
the `if` that rebuilds `context.stylesheetCache`).  `gen` is the external
`generateRules` collaborator, which may grow the class cache. -/
def generateStep (gen : List String → List String → List (Int × RuleNode) × List String)
    (candidates : List String) (ctx : TWContext) : TWContext :=
  let classCacheCount := ctx.classCache.length
  let (rules, classCache') := gen candidates ctx.classCache
  let ctx' := { ctx with classCache := classCache' }
  if ctx'.stylesheetCache = none ∨ ¬ classCache'.length = classCacheCount then
    let rc := rules.foldl sadd ctx'.ruleCache
    { ctx' with ruleCache := rc, stylesheetCache := some (buildStylesheet rc ctx') }
  else ctx'

/-- A node of the PostCSS tree, with explicit identities for the nodes
whose identity the source consults (`container.index`, `before`,
`remove`).  `content` nodes are the cloned generated rules inserted by
this subsystem; their identity is never consulted afterwards. -/
inductive CNode where
  | atRule (id : Nat) (name params : String) (children : List CNode)
  | rootNode (id : Nat) (children : List CNode)
  | content (r : RuleNode)
  | other (id : Nat)

/-- The argument of `expandTailwindAtRules`'s returned function: either a
plain `Root` or an experimental `Document` whose children may include
several roots. -/
inductive CTree where
  | rootT (nodes : List CNode)
  | documentT (nodes : List CNode)

def nodeId : CNode → Option Nat
  | .atRule i _ _ _ => some i
  | .rootNode i _ => some i
  | .content _ => none
  | .other i => some i

/-- `walkAtRules` visit order: each node in document order, descending
into children; yields `(id, name, params)` for every at-rule. -/
def walkAtRulesList : List CNode → List (Nat × String × String)
  | [] => []
  | .atRule i nm ps ch :: rest =>
    (i, nm, ps) :: (walkAtRulesList ch ++ walkAtRulesList rest)
  | .rootNode _ ch :: rest => walkAtRulesList ch ++ walkAtRulesList rest
  | .content _ :: rest => walkAtRulesList rest
  | .other _ :: rest => walkAtRulesList rest

def CTree.walkAtRules : CTree → List (Nat × String × String)
  | .rootT ns => walkAtRulesList ns
  | .documentT ns => walkAtRulesList ns

/-- The `layerNodes` record: at most one node reference (here: node id)
per recognized layer name. -/
structure LayerNodes where
  base : Option Nat
  components : Option Nat
  utilities : Option Nat
  variants : Option Nat
deriving DecidableEq, Repr

def LayerNodes.init : LayerNodes := ⟨none, none, none, none⟩

/-- The callback of the scan walk: on a `tailwind` at-rule whose params
is a recognized layer name, overwrite that layer's entry. -/
def scanStep (ln : LayerNodes) (t : Nat × String × String) : LayerNodes :=
  let (i, nm, ps) := t
  if nm = "tailwind" then
    if ps = "base" then { ln with base := some i }
    else if ps = "components" then { ln with components := some i }
    else if ps = "utilities" then { ln with utilities := some i }
    else if ps = "variants" then { ln with variants := some i }
    else ln
  else ln

/-- The scan phase of `expandTailwindAtRules`. -/
def scanLayerNodes (tree : CTree) : LayerNodes :=
  tree.walkAtRules.foldl scanStep .init

/-- The effective append target for variant rules: the document (or plain
root) itself, or one specific root node of a document. -/
inductive Target where
  | whole
  | root (id : Nat)
deriving DecidableEq, Repr

/-- `node.index(x) !== -1` for an optional node reference `x`: is the
referenced node a direct child of this container? -/
def hasDirectChild (children : List CNode) (x : Option Nat) : Bool :=
  match x with
  | some i => children.any (fun c => nodeId c = some i)
  | none => false

/-- `findRootInDocument(doc, layerNodes)`: with an explicit `variants`
node the document itself is returned; otherwise the top-level root nodes
that have the `components` or `utilities` layer node as a direct child
are collected and the last one is used; if there is none, the
`postcss-document-root-missing` warning is emitted and the document
itself is the fallback. -/
def findRootInDocument (docNodes : List CNode) (ln : LayerNodes) :
    Target × List String :=
  if ln.variants.isSome then (.whole, [])
  else
    let roots := docNodes.filterMap (fun n =>
      match n with
      | .rootNode i ch =>
        if hasDirectChild ch ln.components || hasDirectChild ch ln.utilities then
          some i
        else none
      | _ => none)
    match roots.getLast? with
    | some i => (.root i, [])
    | none => (.whole, ["postcss-document-root-missing"])

/-- The `root = findRootInDocument(root, layerNodes)` step, which only
applies to document nodes. -/
def resolveTarget (tree : CTree) (ln : LayerNodes) : Target × List String :=
  match tree with
  | .documentT ns => findRootInDocument ns ln
  | .rootT _ => (.whole, [])

/-- `layerNode.before(cloneNodes(new, ...)); layerNode.remove()`: splice
`new` in place of the node with id `tid`, wherever it sits in the tree.
Node ids are unique in a PostCSS tree, so replacing every occurrence of
the id coincides with replacing the node. -/
def replaceInList (tid : Nat) (new : List CNode) : List CNode → List CNode
  | [] => []
  | .atRule i nm ps ch :: rest =>
    if i = tid then new ++ replaceInList tid new rest
    else .atRule i nm ps (replaceInList tid new ch) :: replaceInList tid new rest
  | .rootNode i ch :: rest =>
    if i = tid then new ++ replaceInList tid new rest
    else .rootNode i (replaceInList tid new ch) :: replaceInList tid new rest
  | .content r :: rest => .content r :: replaceInList tid new rest
  | .other i :: rest =>
    if i = tid then new ++ replaceInList tid new rest
    else .other i :: replaceInList tid new rest

def CTree.replaceNode (tree : CTree) (tid : Nat) (new : List CNode) : CTree :=
  match tree with
  | .rootT ns => .rootT (replaceInList tid new ns)
  | .documentT ns => .documentT (replaceInList tid new ns)

/-- `root.append(...)` against the resolved target: append to the whole
tree's child list, or into the child list of the targeted document root. -/
def appendAt (tree : CTree) (t : Target) (new : List CNode) : CTree :=
  match t with
  | .whole =>
    match tree with
    | .rootT ns => .rootT (ns ++ new)
    | .documentT ns => .documentT (ns ++ new)
  | .root i =>
    match tree with
    | .rootT ns => .rootT ns
    | .documentT ns => .documentT (ns.map (fun n =>
        match n with
        | .rootNode j ch => if j = i then .rootNode j (ch ++ new) else n
        | _ => n))

/-- Is `ps` one of `Object.keys(layerNodes)`? -/
def recognizedLayer (ps : String) : Bool :=
  ps = "base" || ps = "components" || ps = "utilities" || ps = "variants"

/-- The cleanup walk `root.walkAtRules('layer', ...)`: remove every
at-rule named `layer` whose params is a recognized layer name; a removed
node's subtree is not visited. -/
def removeLayerAtRulesList : List CNode → List CNode
  | [] => []
  | .atRule i nm ps ch :: rest =>
    if nm = "layer" && recognizedLayer ps then removeLayerAtRulesList rest
    else .atRule i nm ps (removeLayerAtRulesList ch) :: removeLayerAtRulesList rest
  | .rootNode i ch :: rest =>
    .rootNode i (removeLayerAtRulesList ch) :: removeLayerAtRulesList rest
  | .content r :: rest => .content r :: removeLayerAtRulesList rest
  | .other i :: rest => .other i :: removeLayerAtRulesList rest

/-- The cleanup walk runs on the (possibly reassigned) `root`, so in a
document with a resolved root target it only visits that root's subtree. -/
def cleanupAt (tree : CTree) (t : Target) : CTree :=
  match t with
  | .whole =>
    match tree with
    | .rootT ns => .rootT (removeLayerAtRulesList ns)
    | .documentT ns => .documentT (removeLayerAtRulesList ns)
  | .root i =>
    match tree with
    | .rootT ns => .rootT ns
    | .documentT ns => .documentT (ns.map (fun n =>
        match n with
        | .rootNode j ch =>
          if j = i then .rootNode j (removeLayerAtRulesList ch) else n
        | _ => n))

/-- The post-filtering callback over the variants bucket: a rule tagged
`components` or `utilities` survives only if that layer node exists;
every other rule survives. -/
def variantPred (ln : LayerNodes) (node : RuleNode) : Bool :=
  match node.parentLayer with
  | some pl =>
    if pl = "components" then ln.components.isSome
    else if pl = "utilities" then ln.utilities.isSome
    else true
  | none => true

/-- Everything a pass of `expandTailwindAtRules` produces or mutates:
the CSS tree, the build context, the extractor cache WeakMap and the
warnings logged (in emission order, identified by their stable codes). -/
structure PassResult where
  tree : CTree
  ctx : TWContext
  emap : List (Nat × QuickLRU)
  warnings : List String

/-- One pass of the function returned by `expandTailwindAtRules(context)`
over a CSS root or document. -/
def expandTailwindAtRules
    (I : Nat → String → List String) (TI : Nat → String → String)
    (gen : List String → List String → List (Int × RuleNode) × List String)
    (ctx : TWContext) (emap : List (Nat × QuickLRU)) (tree : CTree) : PassResult :=
  let ln := scanLayerNodes tree
  if ln = LayerNodes.init then
    ⟨tree, ctx, emap, []⟩
  else
    let target := (resolveTarget tree ln).1
    let warns1 := (resolveTarget tree ln).2
    let cst := collectCandidates I TI ctx.tailwindConfig ctx.changedContent emap
    let ctx1 := generateStep gen cst.candidates ctx
    let sheet := ctx1.stylesheetCache.getD Stylesheet.empty
    let tree1 := match ln.base with
      | some bid =>
        tree.replaceNode bid ((sheet.base ++ sheet.defaults).map CNode.content)
      | none => tree
    let tree2 := match ln.components with
      | some cid => tree1.replaceNode cid (sheet.components.map CNode.content)
      | none => tree1
    let tree3 := match ln.utilities with
      | some uid => tree2.replaceNode uid (sheet.utilities.map CNode.content)
      | none => tree2
    let variantNodes := sheet.variants.filter (variantPred ln)
    let tree4 := match ln.variants with
      | some vid => tree3.replaceNode vid (variantNodes.map CNode.content)
      | none =>
        if variantNodes.length > 0 then
          appendAt tree3 target (variantNodes.map CNode.content)
        else tree3
    let hasUtilityVariants :=
      variantNodes.any (fun n => n.parentLayer = some "utilities")
    let warns2 :=
      if ln.utilities.isSome ∧ sheet.utilities.length = 0 ∧ ¬ hasUtilityVariants then
        ["content-problems"]
      else []
    let ctx2 := { ctx1 with changedContent := [] }
    let tree5 := cleanupAt tree4 target
    ⟨tree5, ctx2, cst.emap, warns1 ++ warns2⟩

/-- The stylesheet partition in effect after the cache step of a pass
(the destructured `context.stylesheetCache`, which the cache step has
made non-null). -/
def passSheet (I : Nat → String → List String) (TI : Nat → String → String)
    (gen : List String → List String → List (Int × RuleNode) × List String)
    (ctx : TWContext) (emap : List (Nat × QuickLRU)) : Stylesheet :=
  let cst := collectCandidates I TI ctx.tailwindConfig ctx.changedContent emap
  (generateStep gen cst.candidates ctx).stylesheetCache.getD Stylesheet.empty

/-- The six buckets of the stylesheet partition. -/
inductive Bucket where
  | base | defaults | components | utilities | variants | user
deriving DecidableEq, Repr

def bucketGet (s : Stylesheet) : Bucket → List RuleNode
  | .base => s.base
  | .defaults => s.defaults
  | .components => s.components
  | .utilities => s.utilities
  | .variants => s.variants
  | .user => s.user

/-- Claim-side routing function, following the claim's words: a sort key
at or above the minimum variant threshold goes to variants; otherwise the
layer bit flags are tested in the fixed order base, defaults, components,
utilities, user and the first set bit decides; no match means no bucket. -/
def specBucketOf (ctx : TWContext) (sort : Int) : Option Bucket :=
  if sort ≥ ctx.minimumScreen then some .variants
  else if ¬ Int.land sort ctx.layerOrder.base = 0 then some .base
  else if ¬ Int.land sort ctx.layerOrder.defaults = 0 then some .defaults
  else if ¬ Int.land sort ctx.layerOrder.components = 0 then some .components
  else if ¬ Int.land sort ctx.layerOrder.utilities = 0 then some .utilities
  else if ¬ Int.land sort ctx.layerOrder.user = 0 then some .user
  else none

/-- Claim-side description of the scan result: the last walked `tailwind`
at-rule whose params equal the given layer name. -/
def lastTailwindNode (ws : List (Nat × String × String)) (layer : String) : Option Nat :=
  ((ws.filter (fun t => t.2.1 == "tailwind" && t.2.2 == layer)).getLast?).map (·.1)

/-- Claim-side description of the effective root: the last top-level root
node of the document that has the components or utilities layer node as a
direct child. -/
def lastRootWithLayerNode (docNodes : List CNode) (ln : LayerNodes) : Option Nat :=
  ((docNodes.filter (fun n =>
    match n with
    | .rootNode _ ch => hasDirectChild ch ln.components || hasDirectChild ch ln.utilities
    | _ => false)).getLast?).bind nodeId

theorem mem_sadd {α} [DecidableEq α] (s : List α) (x a : α) :
    a ∈ sadd s x ↔ a ∈ s ∨ a = x := by
  unfold sadd
  split_ifs with h
  · constructor
    · exact Or.inl
    · rintro (h1 | rfl)
      · exact h1
      · exact h
  · simp [List.mem_append]

theorem routeRule_bucketGet (ctx : TWContext) (ret : Stylesheet)
    (p : Int × RuleNode) (b : Bucket) :
    bucketGet (routeRule ctx ret p) b =
      if specBucketOf ctx p.1 = some b then sadd (bucketGet ret b) p.2
      else bucketGet ret b := by
  obtain ⟨sort, rule⟩ := p
  simp only [routeRule, specBucketOf]
  split_ifs <;> cases b <;> simp_all [bucketGet]

theorem mem_foldl_routeRule (ctx : TWContext) (l : List (Int × RuleNode))
    (init : Stylesheet) (b : Bucket) (r : RuleNode) :
    r ∈ bucketGet (l.foldl (routeRule ctx) init) b ↔
      r ∈ bucketGet init b ∨ ∃ s, (s, r) ∈ l ∧ specBucketOf ctx s = some b := by
  induction l generalizing init with
  | nil => simp
  | cons p rest ih =>
    simp only [List.foldl_cons, ih, routeRule_bucketGet, List.mem_cons]
    by_cases hc : specBucketOf ctx p.1 = some b
    · simp only [hc, if_pos, mem_sadd]
      constructor
      · rintro ((h1 | rfl) | ⟨s, hs, hb⟩)
        · exact Or.inl h1
        · exact Or.inr ⟨p.1, Or.inl rfl, hc⟩
        · exact Or.inr ⟨s, Or.inr hs, hb⟩
      · rintro (h1 | ⟨s, (rfl | hs), hb⟩)
        · exact Or.inl (Or.inl h1)
        · exact Or.inl (Or.inr rfl)
        · exact Or.inr ⟨s, hs, hb⟩
    · rw [if_neg hc]
      constructor
      · rintro (h1 | ⟨s, hs, hb⟩)
        · exact Or.inl h1
        · exact Or.inr ⟨s, Or.inr hs, hb⟩
      · rintro (h1 | ⟨s, (heq | hs), hb⟩)
        · exact Or.inl h1
        · subst heq
          exact absurd hb hc
        · exact Or.inr ⟨s, hs, hb⟩

/-- C1: `buildStylesheet` partitions the rule cache, sorted ascending by
sort key, so that every rule entry is routed into exactly the bucket
determined by the precedence: the minimum variant threshold first, then
the layer bit flags in the order base, defaults, components, utilities,
user; an entry matching neither appears in no bucket. -/
theorem c1_stylesheet_partition (ctx : TWContext) (rules : List (Int × RuleNode)) :
    (∀ b r, r ∈ bucketGet (buildStylesheet rules ctx) b ↔
      ∃ s, (s, r) ∈ rules ∧ specBucketOf ctx s = some b)
    ∧ List.Pairwise (fun a z : Int × RuleNode => a.1 ≤ z.1) (sortRules rules)
    ∧ (sortRules rules).Perm rules
    ∧ (∀ ret p b, bucketGet (routeRule ctx ret p) b =
        if specBucketOf ctx p.1 = some b then sadd (bucketGet ret b) p.2
        else bucketGet ret b) := by
  refine ⟨?_, ?_, ?_, fun ret p b => routeRule_bucketGet ctx ret p b⟩
  · intro b r
    unfold buildStylesheet
    rw [mem_foldl_routeRule]
    have hmem : ∀ s : Int, ((s, r) ∈ sortRules rules ↔ (s, r) ∈ rules) := by
      intro s
      exact List.mem_mergeSort
    constructor
    · rintro (h1 | ⟨s, hs, hb⟩)
      · cases b <;> simp [bucketGet, Stylesheet.empty] at h1
      · exact ⟨s, (hmem s).1 hs, hb⟩
    · rintro ⟨s, hs, hb⟩
      exact Or.inr ⟨s, (hmem s).2 hs, hb⟩
  · have h := @List.sorted_mergeSort (Int × RuleNode)
      (fun a z => decide (a.1 ≤ z.1))
      (fun a c d hab hbc => by
        simp only [decide_eq_true_eq] at *
        omega)
      (fun a c => by
        simp only [Bool.or_eq_true, decide_eq_true_eq]
        omega)
      rules
    exact h.imp (fun hab => by simpa using hab)
  · exact List.mergeSort_perm rules _

/-- C2: the stylesheet cache is rebuilt (and the freshly generated rules
merged into the rule cache) exactly when it is still null or the class
cache's size changed across rule generation; otherwise the context is
returned with the previous partition and rule cache untouched. -/
theorem c2_stylesheet_cache_invalidation
    (gen : List String → List String → List (Int × RuleNode) × List String)
    (cands : List String) (ctx : TWContext)
    (rules : List (Int × RuleNode)) (cc' : List String)
    (h : gen cands ctx.classCache = (rules, cc')) :
    ((ctx.stylesheetCache = none ∨ ¬ cc'.length = ctx.classCache.length) →
      (generateStep gen cands ctx).ruleCache = rules.foldl sadd ctx.ruleCache
      ∧ (generateStep gen cands ctx).stylesheetCache =
          some (buildStylesheet (rules.foldl sadd ctx.ruleCache)
            { ctx with classCache := cc' })
      ∧ (generateStep gen cands ctx).classCache = cc')
    ∧ ((¬ ctx.stylesheetCache = none ∧ cc'.length = ctx.classCache.length) →
      generateStep gen cands ctx = { ctx with classCache := cc' }) := by
  unfold generateStep
  rw [h]
  dsimp only
  constructor
  · intro hcond
    rw [if_pos hcond]
    exact ⟨rfl, rfl, rfl⟩
  · intro hcond
    rw [if_neg (not_or.mpr ⟨hcond.1, not_not_intro hcond.2⟩)]

/-- Concrete build context for witnesses: empty caches, no stylesheet
cache, threshold 100, layer bits 1, 2, 4, 8, 16. -/
def ctxW : TWContext :=
  ⟨[], ⟨[], []⟩, [], [], none, 100, ⟨1, 2, 4, 8, 16⟩⟩

/-- Concrete rule generator for witnesses: one utility-keyed rule, and
one new class cache entry. -/
def genW : List String → List String → List (Int × RuleNode) × List String :=
  fun _ cc => ([((8 : Int), ⟨1, none⟩)], "a" :: cc)

theorem c2_witness :
    (generateStep genW [] ctxW).ruleCache
      = [((8 : Int), (⟨1, none⟩ : RuleNode))].foldl sadd ctxW.ruleCache
    ∧ (generateStep genW [] ctxW).stylesheetCache =
        some (buildStylesheet ([((8 : Int), (⟨1, none⟩ : RuleNode))].foldl sadd ctxW.ruleCache)
          { ctxW with classCache := ["a"] })
    ∧ (generateStep genW [] ctxW).classCache = ["a"] :=
  (c2_stylesheet_cache_invalidation genW [] ctxW _ _ rfl).1 (Or.inl rfl)

/-- C3: per collector call, a trimmed line equal to one already seen is
skipped entirely (so each distinct trimmed line is handled at most once);
an unseen line is added to the seen set and then, on an extraction-cache
hit, the cached candidate set is unioned into the result, while on a miss
the extractor runs, `!*` is discarded, the matches are deduplicated into
a set that is both unioned into the result and stored in this extractor's
cache. -/
theorem processLine_skip (I : Nat → String → List String) (e : Nat)
    (st : LineState) (raw : String) (h : jsTrim raw ∈ st.seen) :
    processLine I e st raw = st := by
  unfold processLine
  rw [if_pos h]

theorem processLine_seen_self (I : Nat → String → List String) (e : Nat)
    (st : LineState) (raw : String) :
    jsTrim raw ∈ (processLine I e st raw).seen := by
  by_cases h : jsTrim raw ∈ st.seen
  · rw [processLine_skip I e st raw h]
    exact h
  · unfold processLine
    rw [if_neg h]
    dsimp only
    split <;> · dsimp only; rw [mem_sadd]; exact Or.inr rfl

theorem c3_candidate_collection (I : Nat → String → List String) (e : Nat)
    (st : LineState) (raw : String) :
    (jsTrim raw ∈ st.seen → processLine I e st raw = st)
    ∧ (¬ jsTrim raw ∈ st.seen →
        (processLine I e st raw).seen = sadd st.seen (jsTrim raw))
    ∧ (¬ jsTrim raw ∈ st.seen → st.cache.has (jsTrim raw) = true →
        (processLine I e st raw).candidates
          = saddAll st.candidates ((st.cache.get (jsTrim raw)).1.getD [])
        ∧ (processLine I e st raw).cache = (st.cache.get (jsTrim raw)).2)
    ∧ (¬ jsTrim raw ∈ st.seen → st.cache.has (jsTrim raw) = false →
        (processLine I e st raw).candidates
          = saddAll st.candidates
              (dedupSet ((I e (jsTrim raw)).filter (fun s => ¬ s = "!*")))
        ∧ (processLine I e st raw).cache
          = st.cache.set (jsTrim raw)
              (dedupSet ((I e (jsTrim raw)).filter (fun s => ¬ s = "!*"))))
    ∧ processLine I e (processLine I e st raw) raw = processLine I e st raw := by
  refine ⟨?_, ?_, ?_, ?_, ?_⟩
  · intro h
    unfold processLine
    rw [if_pos h]
  · intro h
    unfold processLine
    rw [if_neg h]
    dsimp only
    split <;> rfl
  · intro h hhit
    unfold processLine
    rw [if_neg h]
    dsimp only
    rw [if_pos hhit]
    exact ⟨rfl, rfl⟩
  · intro h hmiss
    unfold processLine
    rw [if_neg h]
    dsimp only
    rw [if_neg (by simp [hmiss])]
    exact ⟨rfl, rfl⟩
  · exact processLine_skip I e (processLine I e st raw) raw
      (processLine_seen_self I e st raw)

/-- Concrete extractor interpretation for witnesses. -/
def IW : Nat → String → List String := fun _ _ => ["px-2", "!*", "px-2"]

def stSkip : LineState := ⟨["*"], ["ab"], QuickLRU.empty 25000⟩

def stHit : LineState := ⟨["*"], [], ⟨25000, [("x", ["y"])], [], 1⟩⟩

def stMiss : LineState := ⟨["*"], [], QuickLRU.empty 25000⟩

theorem c3_witness :
    processLine IW 0 stSkip " ab " = stSkip
    ∧ (processLine IW 0 stMiss "x").seen = sadd stMiss.seen (jsTrim "x")
    ∧ (processLine IW 0 stHit "x").candidates
        = saddAll stHit.candidates ((stHit.cache.get (jsTrim "x")).1.getD [])
    ∧ (processLine IW 0 stMiss "x").candidates
        = saddAll stMiss.candidates
            (dedupSet ((IW 0 (jsTrim "x")).filter (fun s => ¬ s = "!*")))
    ∧ processLine IW 0 (processLine IW 0 stMiss "x") "x" = processLine IW 0 stMiss "x" :=
  ⟨(c3_candidate_collection IW 0 stSkip " ab ").1 (by decide),
   (c3_candidate_collection IW 0 stMiss "x").2.1 (by decide),
   ((c3_candidate_collection IW 0 stHit "x").2.2.1 (by decide) (by decide)).1,
   ((c3_candidate_collection IW 0 stMiss "x").2.2.2.1 (by decide) (by decide)).1,
   (c3_candidate_collection IW 0 stMiss "x").2.2.2.2⟩

/-- C4: a variant rule tagged with parent layer `components` or
`utilities` survives the post-filtering step exactly when the layer node
for its tag was found during the scan; a rule with any other tag, or no
tag, always survives. -/
theorem c4_variant_layer_filtering (ln : LayerNodes) (sheet : Stylesheet)
    (node : RuleNode) :
    (node ∈ sheet.variants.filter (variantPred ln) ↔
      node ∈ sheet.variants
      ∧ ((node.parentLayer = some "components" ∧ ln.components.isSome = true)
        ∨ (node.parentLayer = some "utilities" ∧ ln.utilities.isSome = true)
        ∨ (¬ node.parentLayer = some "components"
            ∧ ¬ node.parentLayer = some "utilities")))
    ∧ (∀ i, variantPred ln ⟨i, none⟩ = true) := by
  refine ⟨?_, fun i => rfl⟩
  rw [List.mem_filter]
  rcases hnode : node.parentLayer with _ | pl
  · simp [variantPred, hnode]
  · by_cases hc : pl = "components"
    · subst hc
      simp [variantPred, hnode]
    · by_cases hu : pl = "utilities"
      · subst hu
        simp [variantPred, hnode]
      · simp [variantPred, hnode, hc, hu]

def lnW : LayerNodes := ⟨none, none, some 2, none⟩

theorem c4_witness :
    ((⟨7, some "utilities"⟩ : RuleNode) ∈
      (Stylesheet.mk [] [] [] [] [⟨7, some "utilities"⟩, ⟨8, some "components"⟩] []).variants.filter
        (variantPred lnW)
      ↔ (⟨7, some "utilities"⟩ : RuleNode) ∈
          (Stylesheet.mk [] [] [] [] [⟨7, some "utilities"⟩, ⟨8, some "components"⟩] []).variants
        ∧ (((⟨7, some "utilities"⟩ : RuleNode).parentLayer = some "components"
              ∧ lnW.components.isSome = true)
          ∨ ((⟨7, some "utilities"⟩ : RuleNode).parentLayer = some "utilities"
              ∧ lnW.utilities.isSome = true)
          ∨ (¬ (⟨7, some "utilities"⟩ : RuleNode).parentLayer = some "components"
              ∧ ¬ (⟨7, some "utilities"⟩ : RuleNode).parentLayer = some "utilities")))
    ∧ variantPred lnW ⟨9, none⟩ = true :=
  ⟨(c4_variant_layer_filtering lnW
      (Stylesheet.mk [] [] [] [] [⟨7, some "utilities"⟩, ⟨8, some "components"⟩] [])
      ⟨7, some "utilities"⟩).1,
   (c4_variant_layer_filtering lnW
      (Stylesheet.mk [] [] [] [] [⟨7, some "utilities"⟩, ⟨8, some "components"⟩] [])
      ⟨7, some "utilities"⟩).2 9⟩

theorem getLast?_filterMap_guard {α β} (f : α → Option β) (p : α → Bool)
    (g : α → Option β)
    (hfp : ∀ a, f a = if p a then g a else none)
    (hg : ∀ a, p a = true → (g a).isSome = true) (l : List α) :
    (l.filterMap f).getLast? = (l.filter p).getLast?.bind g := by
  induction l using List.reverseRecOn with
  | nil => rfl
  | append_singleton ws a ih =>
    rw [List.filterMap_append, List.filter_append]
    by_cases hp : p a = true
    · obtain ⟨b, hb⟩ := Option.isSome_iff_exists.mp (hg a hp)
      have hfa : List.filterMap f [a] = [b] := by
        simp [List.filterMap_cons, hfp a, hp, hb]
      have hpa : List.filter p [a] = [a] := by simp [hp]
      rw [hfa, hpa, List.getLast?_concat, List.getLast?_concat]
      simp [hb]
    · rw [Bool.not_eq_true] at hp
      have hfa : List.filterMap f [a] = [] := by
        simp [List.filterMap_cons, hfp a, hp]
      have hpa : List.filter p [a] = [] := by simp [hp]
      rw [hfa, hpa, List.append_nil, List.append_nil, ih]

theorem findRoot_roots_eq (docNodes : List CNode) (ln : LayerNodes) :
    (docNodes.filterMap (fun n =>
      match n with
      | CNode.rootNode i ch =>
        if hasDirectChild ch ln.components || hasDirectChild ch ln.utilities then
          some i
        else none
      | _ => none)).getLast? = lastRootWithLayerNode docNodes ln := by
  unfold lastRootWithLayerNode
  refine getLast?_filterMap_guard _ _ nodeId ?_ ?_ docNodes
  · intro a
    rcases a with ⟨i, nm, ps, ch⟩ | ⟨i, ch⟩ | r | i <;> rfl
  · intro a hp
    rcases a with ⟨i, nm, ps, ch⟩ | ⟨i, ch⟩ | r | i
    · exact Bool.noConfusion hp
    · rfl
    · exact Bool.noConfusion hp
    · exact Bool.noConfusion hp

/-- C5: in a multi-root document without an explicit `variants` layer
node, the effective append target is the last top-level root node that
has the `components` or `utilities` layer node as a direct child; when no
such root exists the `postcss-document-root-missing` warning is emitted
and the document itself is used; when a `variants` layer node exists the
document itself is returned without searching. -/
theorem c5_effective_append_target (docNodes : List CNode) (ln : LayerNodes) :
    findRootInDocument docNodes ln =
      (if ln.variants.isSome then (Target.whole, ([] : List String))
       else
         match lastRootWithLayerNode docNodes ln with
         | some i => (Target.root i, [])
         | none => (Target.whole, ["postcss-document-root-missing"]))
    ∧ resolveTarget (CTree.documentT docNodes) ln
        = findRootInDocument docNodes ln := by
  refine ⟨?_, rfl⟩
  unfold findRootInDocument
  by_cases hv : ln.variants.isSome = true
  · rw [if_pos hv, if_pos hv]
  · rw [if_neg hv, if_neg hv]
    rw [← findRoot_roots_eq docNodes ln]

theorem scan_fold_last (ws : List (Nat × String × String)) :
    ws.foldl scanStep LayerNodes.init =
      ⟨lastTailwindNode ws "base", lastTailwindNode ws "components",
       lastTailwindNode ws "utilities", lastTailwindNode ws "variants"⟩ := by
  induction ws using List.reverseRecOn with
  | nil => rfl
  | append_singleton ws w ih =>
    rw [List.foldl_append, ih]
    unfold lastTailwindNode
    obtain ⟨i, nm, ps⟩ := w
    simp only [List.filter_append, List.foldl_cons, List.foldl_nil]
    unfold scanStep
    dsimp only
    by_cases hnm : nm = "tailwind"
    · subst hnm
      by_cases h1 : ps = "base"
      · subst h1
        simp [lastTailwindNode, List.getLast?_concat]
      · by_cases h2 : ps = "components"
        · subst h2
          simp [lastTailwindNode, List.getLast?_concat]
        · by_cases h3 : ps = "utilities"
          · subst h3
            simp [lastTailwindNode, List.getLast?_concat]
          · by_cases h4 : ps = "variants"
            · subst h4
              simp [lastTailwindNode, List.getLast?_concat]
            · simp [lastTailwindNode, h1, h2, h3, h4]
    · simp [lastTailwindNode, hnm]

/-- C6: when several `tailwind` at-rules carry the same recognized layer
name, the scan records the last walked occurrence as that layer's node;
the scan itself is read-only, so earlier duplicates stay in the tree, and
only the recorded (last) occurrence is an injection target. -/
theorem c6_last_duplicate_layer_wins (tree : CTree) :
    (scanLayerNodes tree).base = lastTailwindNode tree.walkAtRules "base"
    ∧ (scanLayerNodes tree).components = lastTailwindNode tree.walkAtRules "components"
    ∧ (scanLayerNodes tree).utilities = lastTailwindNode tree.walkAtRules "utilities"
    ∧ (scanLayerNodes tree).variants = lastTailwindNode tree.walkAtRules "variants" := by
  unfold scanLayerNodes
  rw [scan_fold_last]
  exact ⟨rfl, rfl, rfl, rfl⟩

/-- C7: when the scan finds no layer node at all, the pass returns with
the tree, the context and the extractor caches untouched and no warnings;
in particular no rule generation happens. -/
theorem c7_bailout_leaves_everything_untouched
    (I : Nat → String → List String) (TI : Nat → String → String)
    (gen : List String → List String → List (Int × RuleNode) × List String)
    (ctx : TWContext) (emap : List (Nat × QuickLRU)) (tree : CTree)
    (h : scanLayerNodes tree = LayerNodes.init) :
    expandTailwindAtRules I TI gen ctx emap tree = ⟨tree, ctx, emap, []⟩ := by
  unfold expandTailwindAtRules
  rw [if_pos h]

/-- Concrete identity transformer interpretation for witnesses. -/
def TIW : Nat → String → String := fun _ s => s

theorem c7_witness :
    expandTailwindAtRules IW TIW genW ctxW [] (CTree.rootT [CNode.other 5])
      = ⟨CTree.rootT [CNode.other 5], ctxW, [], []⟩ :=
  c7_bailout_leaves_everything_untouched IW TIW genW ctxW []
    (CTree.rootT [CNode.other 5])
    (by simp [scanLayerNodes, CTree.walkAtRules, walkAtRulesList, LayerNodes.init])

/-- Build context with pending changed content, for the C8 analysis. -/
def ctxC8 : TWContext :=
  ⟨[⟨"x", "html"⟩], ⟨[], []⟩, [], [], none, 100, ⟨1, 2, 4, 8, 16⟩⟩

/-- C8 counterexample: a pass over a root with no `tailwind` directive
bails out before the reset step, so the changed-content list is left
as it was, not cleared. -/
theorem c8_counterexample :
    (expandTailwindAtRules IW TIW genW ctxC8 []
        (CTree.rootT [CNode.other 5])).ctx.changedContent
      = [⟨"x", "html"⟩]
    ∧ ¬ (expandTailwindAtRules IW TIW genW ctxC8 []
        (CTree.rootT [CNode.other 5])).ctx.changedContent = [] := by
  have h : scanLayerNodes (CTree.rootT [CNode.other 5]) = LayerNodes.init := by
    simp [scanLayerNodes, CTree.walkAtRules, walkAtRulesList, LayerNodes.init]
  constructor
  · unfold expandTailwindAtRules
    rw [if_pos h]
    rfl
  · unfold expandTailwindAtRules
    rw [if_pos h]
    simp [ctxC8]

/-- C8 (amended): the changed-content list is reset to empty after every
pass in which at least one layer node was found; a pass that finds none
returns early and leaves it unchanged. -/
theorem c8_changed_content_reset
    (I : Nat → String → List String) (TI : Nat → String → String)
    (gen : List String → List String → List (Int × RuleNode) × List String)
    (ctx : TWContext) (emap : List (Nat × QuickLRU)) (tree : CTree)
    (h : ¬ scanLayerNodes tree = LayerNodes.init) :
    (expandTailwindAtRules I TI gen ctx emap tree).ctx.changedContent = [] := by
  unfold expandTailwindAtRules
  rw [if_neg h]

theorem c8_witness :
    (expandTailwindAtRules IW TIW genW ctxC8 []
        (CTree.rootT [CNode.atRule 1 "tailwind" "utilities" []])).ctx.changedContent
      = [] :=
  c8_changed_content_reset IW TIW genW ctxC8 []
    (CTree.rootT [CNode.atRule 1 "tailwind" "utilities" []])
    (by simp [scanLayerNodes, CTree.walkAtRules, walkAtRulesList, scanStep,
      LayerNodes.init])

theorem resolveTarget_warnings (tree : CTree) (ln : LayerNodes) :
    (resolveTarget tree ln).2 = []
    ∨ (resolveTarget tree ln).2 = ["postcss-document-root-missing"] := by
  unfold resolveTarget findRootInDocument
  rcases tree with ns | ns
  · exact Or.inl rfl
  · dsimp only
    split_ifs
    · exact Or.inl rfl
    · split
      · exact Or.inl rfl
      · exact Or.inr rfl

/-- C9: the `content-problems` advisory warning is emitted by a pass if
and only if a `utilities` layer node was found by the scan, the utilities
bucket of the stylesheet partition in effect is empty, and no variant
rule surviving the filtering step carries the `utilities` parent-layer
tag. -/
theorem c9_no_utilities_warning
    (I : Nat → String → List String) (TI : Nat → String → String)
    (gen : List String → List String → List (Int × RuleNode) × List String)
    (ctx : TWContext) (emap : List (Nat × QuickLRU)) (tree : CTree) :
    "content-problems" ∈ (expandTailwindAtRules I TI gen ctx emap tree).warnings ↔
      ((scanLayerNodes tree).utilities.isSome = true
        ∧ (passSheet I TI gen ctx emap).utilities.length = 0
        ∧ ((passSheet I TI gen ctx emap).variants.filter
            (variantPred (scanLayerNodes tree))).any
              (fun n => n.parentLayer = some "utilities") = false) := by
  unfold expandTailwindAtRules passSheet
  by_cases h : scanLayerNodes tree = LayerNodes.init
  · rw [if_pos h]
    dsimp only
    constructor
    · intro hmem
      exact absurd hmem (List.not_mem_nil _)
    · rintro ⟨h1, _, _⟩
      rw [h] at h1
      exact Bool.noConfusion h1
  · rw [if_neg h]
    dsimp only
    rw [List.mem_append]
    have hw := resolveTarget_warnings tree (scanLayerNodes tree)
    have hnotin : ¬ "content-problems" ∈ (resolveTarget tree (scanLayerNodes tree)).2 := by
      rcases hw with hw | hw <;> rw [hw] <;> simp
    constructor
    · rintro (hmem | hmem)
      · exact absurd hmem hnotin
      · by_cases hcond : ((scanLayerNodes tree).utilities.isSome = true
          ∧ ((generateStep gen (collectCandidates I TI ctx.tailwindConfig
                ctx.changedContent emap).candidates ctx).stylesheetCache.getD
              Stylesheet.empty).utilities.length = 0
          ∧ ¬ (((generateStep gen (collectCandidates I TI ctx.tailwindConfig
                ctx.changedContent emap).candidates ctx).stylesheetCache.getD
              Stylesheet.empty).variants.filter
                (variantPred (scanLayerNodes tree))).any
                  (fun n => n.parentLayer = some "utilities") = true)
        · exact ⟨hcond.1, hcond.2.1, Bool.not_eq_true _ ▸ hcond.2.2⟩
        · rw [if_neg hcond] at hmem
          exact absurd hmem (List.not_mem_nil _)
    · rintro ⟨h1, h2, h3⟩
      refine Or.inr ?_
      rw [if_pos ⟨h1, h2, (Bool.not_eq_true _) ▸ h3⟩]
      exact List.mem_singleton.mpr rfl

theorem processLine_seen_mono (I : Nat → String → List String) (e : Nat)
    (st : LineState) (raw : String) (x : String) (hx : x ∈ st.seen) :
    x ∈ (processLine I e st raw).seen := by
  by_cases h : jsTrim raw ∈ st.seen
  · rw [processLine_skip I e st raw h]
    exact hx
  · unfold processLine
    rw [if_neg h]
    dsimp only
    split <;> · dsimp only; rw [mem_sadd]; exact Or.inl hx

theorem fold_seen_mono (I : Nat → String → List String) (e : Nat)
    (lines : List String) (st : LineState) (x : String) (hx : x ∈ st.seen) :
    x ∈ (lines.foldl (processLine I e) st).seen := by
  induction lines generalizing st with
  | nil => exact hx
  | cons a rest ih =>
    rw [List.foldl_cons]
    exact ih (processLine I e st a) (processLine_seen_mono I e st a x hx)

theorem fold_line_in_seen (I : Nat → String → List String) (e : Nat)
    (lines : List String) (st : LineState) (raw : String) (hr : raw ∈ lines) :
    jsTrim raw ∈ (lines.foldl (processLine I e) st).seen := by
  induction lines generalizing st with
  | nil => exact absurd hr (List.not_mem_nil _)
  | cons a rest ih =>
    rw [List.foldl_cons]
    rcases List.mem_cons.mp hr with rfl | hr'
    · exact fold_seen_mono I e rest (processLine I e st raw) (jsTrim raw)
        (processLine_seen_self I e st raw)
    · exact ih (processLine I e st a) hr'

theorem fold_skip_all (I : Nat → String → List String) (e : Nat)
    (lines : List String) (st : LineState)
    (h : ∀ raw ∈ lines, jsTrim raw ∈ st.seen) :
    lines.foldl (processLine I e) st = st := by
  induction lines with
  | nil => rfl
  | cons a rest ih =>
    rw [List.foldl_cons, processLine_skip I e st a (h a (List.mem_cons_self a rest))]
    exact ih (fun raw hr => h raw (List.mem_cons_of_mem a hr))

theorem getClassCandidates_noop (I : Nat → String → List String)
    (content : String) (e : Nat) (cand seen : List String)
    (emap : List (Nat × QuickLRU))
    (h : ∀ raw ∈ splitNewlines content, jsTrim raw ∈ seen) :
    (getClassCandidates I content e cand seen emap).1 = cand
    ∧ (getClassCandidates I content e cand seen emap).2.1 = seen := by
  unfold getClassCandidates
  dsimp only
  rw [fold_skip_all I e (splitNewlines content) _ h]
  exact ⟨rfl, rfl⟩

theorem getClassCandidates_seen_super (I : Nat → String → List String)
    (content : String) (e : Nat) (cand seen : List String)
    (emap : List (Nat × QuickLRU)) (raw : String)
    (hr : raw ∈ splitNewlines content) :
    jsTrim raw ∈ (getClassCandidates I content e cand seen emap).2.1 := by
  unfold getClassCandidates
  dsimp only
  exact fold_line_in_seen I e (splitNewlines content) _ raw hr

/-- C10: the per-call seen set is shared across all changed-content units
and extractors; when a second unit with the same content (and identity
transformers) selects a different extractor, every one of its lines is
already seen, so the second extractor contributes nothing: the resulting
candidates and seen set are those of the first unit alone. -/
theorem c10_shared_seen_across_units
    (I : Nat → String → List String) (TI : Nat → String → String)
    (cfg : TWConfig) (c ext1 ext2 : String) (emap : List (Nat × QuickLRU))
    (htr : cfg.transform = []) (h1 : ¬ ext1 = "svelte") (h2 : ¬ ext2 = "svelte")
    (_hne : ¬ getExtractor cfg ext1 = getExtractor cfg ext2) :
    (collectCandidates I TI cfg [⟨c, ext1⟩, ⟨c, ext2⟩] emap).candidates
      = (collectCandidates I TI cfg [⟨c, ext1⟩] emap).candidates
    ∧ (collectCandidates I TI cfg [⟨c, ext1⟩, ⟨c, ext2⟩] emap).seen
      = (collectCandidates I TI cfg [⟨c, ext1⟩] emap).seen := by
  have htrans : ∀ ext, ¬ ext = "svelte" → getTransformer cfg ext = .builtinDefault := by
    intro ext hx
    unfold getTransformer
    rw [htr]
    dsimp only [mapGet, List.find?]
    rw [if_neg hx]
    rfl
  unfold collectCandidates
  simp only [List.foldl_cons, List.foldl_nil]
  unfold collectStep
  rw [htrans ext1 h1, htrans ext2 h2]
  dsimp only [applyTransformer]
  set st1c := getClassCandidates I c (getExtractor cfg ext1) ["*"] [] emap with hst1
  have hall : ∀ raw ∈ splitNewlines c, jsTrim raw ∈ st1c.2.1 := by
    intro raw hr
    exact getClassCandidates_seen_super I c (getExtractor cfg ext1) ["*"] [] emap raw hr
  have hno := getClassCandidates_noop I c (getExtractor cfg ext2)
    st1c.1 st1c.2.1 st1c.2.2 hall
  exact ⟨hno.1, hno.2⟩

def cfgW : TWConfig := ⟨[("html", 0), ("js", 7)], []⟩

theorem c10_witness :
    (collectCandidates IW TIW cfgW [⟨"p-1 q", "html"⟩, ⟨"p-1 q", "js"⟩] []).candidates
      = (collectCandidates IW TIW cfgW [⟨"p-1 q", "html"⟩] []).candidates
    ∧ (collectCandidates IW TIW cfgW [⟨"p-1 q", "html"⟩, ⟨"p-1 q", "js"⟩] []).seen
      = (collectCandidates IW TIW cfgW [⟨"p-1 q", "html"⟩] []).seen :=
  c10_shared_seen_across_units IW TIW cfgW "p-1 q" "html" "js" [] rfl
    (by decide) (by decide) (by decide)

end TW

